import Mathlib

/-!
Verification of the `rand-sketch` crate: three API encodings (`assoc`,
`stream`, `typeparam`) of a constrained uniform sampler over a raw entropy
source, embedded shallowly.

Machine integers are modelled as `Nat` (unsigned image) and `Int` (signed
image) with explicit reductions modulo `2^32` / `2^64` wherever the Rust
code wraps or reinterprets bits.  The possibly-nonterminating rejection
loops are modelled with an explicit fuel parameter: a result of `none`
means the loop did not accept a word within `fuel` iterations.  Rust
`assert!` failures (aborts) are modelled by an outer `Option` layer (or an
`Option`-returning constructor): `none` at that layer means the assertion
fired.  `test::black_box` is the identity and is omitted.
-/

namespace RandSketch

/-- Rust `2^32`, the number of `u32` values; `u32::MAX = U32MOD - 1`. -/
def U32MOD : Nat := 2 ^ 32

/-- Rust `2^64`, the number of `u64` values; `u64::MAX = U64MOD - 1`. -/
def U64MOD : Nat := 2 ^ 64

/-- Rust `i64::MIN`. -/
def i64MIN : Int := -(2 ^ 63)

/-- Rust `i64::MAX`. -/
def i64MAX : Int := 2 ^ 63 - 1

/-- Reinterpret an `i64` value as a `u64` bit pattern (two's complement),
the meaning of `x as u64` and of `mem::transmute::<i64, u64>`. -/
def toU64 (x : Int) : Nat := (x % (U64MOD : Int)).toNat

/-- Reinterpret a `u64` bit pattern (a `Nat` below `2^64`) as an `i64`
value, the meaning of `x as i64` and of `mem::transmute::<u64, i64>`. -/
def toI64 (n : Nat) : Int := if n < 2 ^ 63 then (n : Int) else (n : Int) - (U64MOD : Int)

/-- Rust `u32` wrapping negation `-x` (the crate enables `unsigned_negation`). -/
def wnegU32 (x : Nat) : Nat := (U32MOD - x % U32MOD) % U32MOD

/-- Rust `i64::wrapping_add`. -/
def waddI64 (a b : Int) : Int := toI64 ((toU64 a + toU64 b) % U64MOD)

/-- Rust `i64::wrapping_sub`. -/
def wsubI64 (a b : Int) : Int := toI64 (toU64 (a - b))

/-- Rust `i64` wrapping negation (two's complement). -/
def wnegI64 (x : Int) : Int := toI64 ((U64MOD - toU64 x) % U64MOD)

/-- The entropy source: an infinite reproducible stream of raw machine
words together with a cursor counting the words already consumed.  This
models a (cloned) `Rng`: two clones share `words` and `pos`. -/
structure Rng where
  words : Nat → Nat
  pos : Nat

/-- Rust `rng.next_u32()` (also `rng.gen::<u32>()`): the next raw word reduced
to 32 bits, and the advanced source. -/
def next32 (r : Rng) : Nat × Rng := (r.words r.pos % U32MOD, ⟨r.words, r.pos + 1⟩)

/-- Rust `rng.next_u64()` (also `rng.gen::<u64>()`): the next raw word reduced
to 64 bits, and the advanced source. -/
def next64 (r : Rng) : Nat × Rng := (r.words r.pos % U64MOD, ⟨r.words, r.pos + 1⟩)

/-- Rust `rng.gen::<f64>()`: a uniform draw in `[0,1)` derived from the next
raw word (modelled over `ℚ`; the claims settled against the float path
involve only comparisons and the affine map, not IEEE rounding). -/
def nextF64 (r : Rng) : ℚ × Rng := (((r.words r.pos % 2 ^ 53 : Nat) : ℚ) / 2 ^ 53, ⟨r.words, r.pos + 1⟩)

/-!
## Encoding A — `assoc.rs`

`IntegerConstraint<X>` is a wrapper struct around the private enum
`IntegerConstraint_<X>` with variants `Full` and
`Bounded {low, range, accept_zone}`; the wrapper adds nothing and the two
are modelled as one inductive.  The `u32` instance stores 32-bit fields,
the `i64` instance stores 64-bit unsigned fields; both are `Nat` here.
-/

inductive IntegerConstraint where
  | Full : IntegerConstraint
  | Bounded (low range accept_zone : Nat) : IntegerConstraint
deriving DecidableEq

/-- The rejection loop of `<u32 as assoc::Random>::gen` in the `Bounded`
arm: draw `v = rng.gen::<u32>()`; if `v < accept_zone` return
`low.wrapping_add(v % range)`, else repeat. -/
def assocLoopU32 (low range accept_zone : Nat) : Nat → Rng → Option (Nat × Rng)
  | 0, _ => none
  | fuel + 1, rng =>
    let p := next32 rng
    if p.1 < accept_zone then some ((low + p.1 % range) % U32MOD, p.2)
    else assocLoopU32 low range accept_zone fuel p.2

/-- Rust `<u32 as assoc::Random>::gen`: `Full` returns `rng.gen::<u32>()`
directly (the `black_box` calls are identity), `Bounded` runs the
rejection loop. -/
def assocGenU32 (c : IntegerConstraint) (fuel : Nat) (rng : Rng) : Option (Nat × Rng) :=
  match c with
  | .Full => some (next32 rng)
  | .Bounded low range accept_zone => assocLoopU32 low range accept_zone fuel rng

/-- Rust `<Range<u32> as Into<IntegerConstraint<u32>>>::into`:
`assert!(start < end)`, `range = end - start`, `max = !0u32`,
`zone = max - (max % range)`.  `none` models the assertion failing. -/
def assocIntoRangeU32 (start end' : Nat) : Option IntegerConstraint :=
  if start < end' then
    let range := end' - start
    let max := U32MOD - 1
    let zone := max - max % range
    some (.Bounded start range zone)
  else none

/-- Rust `<RangeFrom<u32> as Into<IntegerConstraint<u32>>>::into`:
`start == 0` gives `Full`; otherwise `range = -start` (wrapping) and the
usual zone.  No assertion: construction always succeeds. -/
def assocIntoRangeFromU32 (start : Nat) : IntegerConstraint :=
  if start = 0 then .Full
  else
    let range := wnegU32 start
    let max := U32MOD - 1
    .Bounded start range (max - max % range)

/-- The rejection loop of `<i64 as assoc::Random>::gen` in the `Bounded`
arm: draw `v = rng.gen::<u64>()`; if `v < accept_zone` return
`low.wrapping_add(v % range) as i64`. -/
def assocLoopI64 (low range accept_zone : Nat) : Nat → Rng → Option (Int × Rng)
  | 0, _ => none
  | fuel + 1, rng =>
    let p := next64 rng
    if p.1 < accept_zone then some (toI64 ((low + p.1 % range) % U64MOD), p.2)
    else assocLoopI64 low range accept_zone fuel p.2

/-- Rust `<i64 as assoc::Random>::gen`: `Full` returns `rng.gen::<i64>()`
(the next 64-bit word reinterpreted as signed). -/
def assocGenI64 (c : IntegerConstraint) (fuel : Nat) (rng : Rng) : Option (Int × Rng) :=
  match c with
  | .Full => some (toI64 (next64 rng).1, (next64 rng).2)
  | .Bounded low range accept_zone => assocLoopI64 low range accept_zone fuel rng

/-- Rust `<Range<i64> as Into<IntegerConstraint<u64>>>::into`:
`assert!(start < end)`, `range = end.wrapping_sub(start) as u64`,
`low = start as u64`, `zone = !0u64 - (!0u64 % range)`. -/
def assocIntoRangeI64 (start end' : Int) : Option IntegerConstraint :=
  if start < end' then
    let range := toU64 (wsubI64 end' start)
    let max := U64MOD - 1
    some (.Bounded (toU64 start) range (max - max % range))
  else none

/-- Rust `<RangeFrom<i64> as Into<IntegerConstraint<u64>>>::into`:
`start == i64::MIN` gives `Full`; otherwise
`range = -(i64::MIN.wrapping_add(start)) as u64` (unary minus binds after
the method call), `low = start as u64`. -/
def assocIntoRangeFromI64 (start : Int) : IntegerConstraint :=
  if start = i64MIN then .Full
  else
    let range := toU64 (wnegI64 (waddI64 i64MIN start))
    let max := U64MOD - 1
    .Bounded (toU64 start) range (max - max % range)

/-- Rust `FloatConstraint<f64>`: a wrapper around `Option<Range<f64>>`;
`none` is the unconstrained case. -/
def FloatConstraint : Type := Option (ℚ × ℚ)

/-- Rust `<Range<f64> as Into<FloatConstraint<f64>>>::into`: stores the range
verbatim.  There is no assertion: construction never fails, even for an
empty range. -/
def assocIntoRangeF64 (start end' : ℚ) : FloatConstraint := some (start, end')

/-- Rust `<f64 as assoc::Random>::gen`: unconstrained returns `rng.gen()`;
otherwise `range.start + rng.gen() * (range.end - range.start)`.
No loop and no assertion, so the draw is total. -/
def assocGenF64 (c : FloatConstraint) (rng : Rng) : ℚ × Rng :=
  match c with
  | none => nextF64 rng
  | some (start, end') =>
    let p := nextF64 rng
    (start + p.1 * (end' - start), p.2)

/-- Rust `assoc::GenIter` at `u32`: owns the converted constraint and the
entropy source. -/
structure GenIterU32 where
  constraint : IntegerConstraint
  rng : Rng

/-- Rust `<assoc::GenIter as Iterator>::next`:
`Some(Random::gen(&self.constraint, &mut self.rng))`.  The inner
`Option Nat` is the Rust `Option<u32>` returned by `next` (always `Some`);
the outer `Option` is fuel exhaustion of the embedded rejection loop. -/
def genIterNextU32 (it : GenIterU32) (fuel : Nat) : Option (Option Nat × GenIterU32) :=
  match assocGenU32 it.constraint fuel it.rng with
  | none => none
  | some (x, rng') => some (some x, ⟨it.constraint, rng'⟩)

/-- Rust `iterator.take k` observed as a list: stops early only if `next`
returns the terminal `None`. -/
def genIterTakeU32 (fuel : Nat) : Nat → GenIterU32 → Option (List Nat × GenIterU32)
  | 0, it => some ([], it)
  | k + 1, it =>
    match genIterNextU32 it fuel with
    | none => none
    | some (none, it') => some ([], it')
    | some (some x, it') => (genIterTakeU32 fuel k it').map fun q => (x :: q.1, q.2)

/-!
## Encoding B — `stream.rs`

`IntegerStreamBounded<T>` caches `{low, range, accept_zone}` at the field
type `T`; `IntegerStreamFull<T>` is a phantom.  For `u32` all fields are
unsigned.  For `i64` the fields are `i64`: the constructor computes
`max = !0` and `zone = max - (max % range)` **in `i64` arithmetic**
(inference forces `max : i64` since `range : i64`), stores `zone` through
an identity `transmute::<i64, i64>`, and `next` transmutes `accept_zone`
and `range` to `u64`.  Rust `%` on `i64` is truncated remainder
(`Int.tmod`).
-/

structure IntegerStreamBounded where
  low : Nat
  range : Nat
  accept_zone : Nat
deriving DecidableEq

/-- Rust `<u32 as stream::Rand<Range<u32>>>::rand`: `assert!(start < end)`,
then cache `{low, range, accept_zone}` exactly as the assoc conversion. -/
def streamRandRangeU32 (start end' : Nat) : Option IntegerStreamBounded :=
  if start < end' then
    let range := end' - start
    let max := U32MOD - 1
    let zone := max - max % range
    some ⟨start, range, zone⟩
  else none

/-- Rust `<IntegerStreamBounded<u32> as RandStream<u32>>::next`: draw
`v = rng.next_u32()`; accept when `v < self.accept_zone`. -/
def streamNextBoundedU32 (s : IntegerStreamBounded) : Nat → Rng → Option (Nat × Rng)
  | 0, _ => none
  | fuel + 1, rng =>
    let p := next32 rng
    if p.1 < s.accept_zone then some ((s.low + p.1 % s.range) % U32MOD, p.2)
    else streamNextBoundedU32 s fuel p.2

/-- Rust `<IntegerStreamFull<u32> as RandStream<u32>>::next`: `rng.next_u32()`. -/
def streamNextFullU32 (rng : Rng) : Nat × Rng := next32 rng

/-- Rust `IntegerStreamBounded<i64>`: all three cached fields are `i64`. -/
structure IntegerStreamBoundedI64 where
  low : Int
  range : Int
  accept_zone : Int
deriving DecidableEq

/-- Rust `<i64 as stream::Rand<Range<i64>>>::rand`: `assert!(start < end)`,
`range = end.wrapping_sub(start)` (an `i64`), `max = !0i64 = -1`,
`zone = max - (max % range)` in `i64` (truncated-remainder) arithmetic,
stored via the identity `transmute::<i64, i64>`. -/
def streamRandRangeI64 (start end' : Int) : Option IntegerStreamBoundedI64 :=
  if start < end' then
    let range := wsubI64 end' start
    let max : Int := -1
    let zone := max - Int.tmod max range
    some ⟨start, range, zone⟩
  else none

/-- Rust `<IntegerStreamBounded<i64> as RandStream<i64>>::next`:
`zone = transmute::<i64, u64>(self.accept_zone)`,
`range = transmute::<i64, u64>(self.range)`; draw `v = rng.next_u64()`;
accept when `v < zone`, returning
`self.low.wrapping_add(transmute::<u64, i64>(v % range))`. -/
def streamNextBoundedI64 (s : IntegerStreamBoundedI64) : Nat → Rng → Option (Int × Rng)
  | 0, _ => none
  | fuel + 1, rng =>
    let zone := toU64 s.accept_zone
    let range := toU64 s.range
    let p := next64 rng
    if p.1 < zone then some (waddI64 s.low (toI64 (p.1 % range)), p.2)
    else streamNextBoundedI64 s fuel p.2

/-- Rust `<IntegerStreamFull<i64> as RandStream<i64>>::next`:
`transmute::<u64, i64>(rng.next_u64())`. -/
def streamNextFullI64 (rng : Rng) : Int × Rng := (toI64 (next64 rng).1, (next64 rng).2)

/-!
## Encoding C — `typeparam.rs`

The draw is polymorphic over the range shape; `width` and `accept_zone`
are recomputed inside every call, and the `assert!` also runs on every
call, so a draw itself can abort.  Draws that contain an assertion return
`Option (Option _)`: the outer `none` is the assertion firing, the inner
`none` is fuel exhaustion.  The additions `range.start + (v % range_)`
cannot overflow for in-range inputs but are written with the wrapping
reduction of the machine type, matching release-mode semantics.
-/

/-- The rejection loop of `<u32 as typeparam::Random<Range<u32>>>::gen`. -/
def typeparamLoopRangeU32 (start range' zone : Nat) : Nat → Rng → Option (Nat × Rng)
  | 0, _ => none
  | fuel + 1, rng =>
    let p := next32 rng
    if p.1 < zone then some ((start + p.1 % range') % U32MOD, p.2)
    else typeparamLoopRangeU32 start range' zone fuel p.2

/-- Rust `<u32 as typeparam::Random<Range<u32>>>::gen`:
`assert!(start < end)` (at draw time!), then `range_ = end - start`,
`zone = !0u32 - (!0u32 % range_)`, then the rejection loop. -/
def typeparamGenRangeU32 (start end' : Nat) (fuel : Nat) (rng : Rng) :
    Option (Option (Nat × Rng)) :=
  if start < end' then
    let range' := end' - start
    let max := U32MOD - 1
    let zone := max - max % range'
    some (typeparamLoopRangeU32 start range' zone fuel rng)
  else none

/-- Rust `<u32 as typeparam::Random<RangeFull>>::gen`: `rng.gen()`. -/
def typeparamGenFullU32 (rng : Rng) : Nat × Rng := next32 rng

/-- The rejection loop of `<u32 as typeparam::Random<RangeFrom<u32>>>::gen`. -/
def typeparamLoopFromU32 (start range' zone : Nat) : Nat → Rng → Option (Nat × Rng)
  | 0, _ => none
  | fuel + 1, rng =>
    let p := next32 rng
    if p.1 < zone then some ((start + p.1 % range') % U32MOD, p.2)
    else typeparamLoopFromU32 start range' zone fuel p.2

/-- Rust `<u32 as typeparam::Random<RangeFrom<u32>>>::gen`: `start == 0`
returns `rng.gen()` directly; else `range_ = -start` (wrapping) and the
rejection loop.  No assertion, so no abort layer. -/
def typeparamGenRangeFromU32 (start : Nat) (fuel : Nat) (rng : Rng) : Option (Nat × Rng) :=
  if start = 0 then some (next32 rng)
  else
    let range' := wnegU32 start
    let max := U32MOD - 1
    typeparamLoopFromU32 start range' (max - max % range') fuel rng

/-- The rejection loop of `<i64 as typeparam::Random<Range<i64>>>::gen`:
accept `v < zone`, returning `range.start.wrapping_add((v % range_) as i64)`. -/
def typeparamLoopRangeI64 (start : Int) (range' zone : Nat) : Nat → Rng → Option (Int × Rng)
  | 0, _ => none
  | fuel + 1, rng =>
    let p := next64 rng
    if p.1 < zone then some (waddI64 start (toI64 (p.1 % range')), p.2)
    else typeparamLoopRangeI64 start range' zone fuel p.2

/-- Rust `<i64 as typeparam::Random<Range<i64>>>::gen`: `assert!(start < end)`
at draw time, `range_ = end.wrapping_sub(start) as u64`,
`zone = !0u64 - (!0u64 % range_)`, then the rejection loop. -/
def typeparamGenRangeI64 (start end' : Int) (fuel : Nat) (rng : Rng) :
    Option (Option (Int × Rng)) :=
  if start < end' then
    let range' := toU64 (wsubI64 end' start)
    let max := U64MOD - 1
    some (typeparamLoopRangeI64 start range' (max - max % range') fuel rng)
  else none

/-- Rust `<i64 as typeparam::Random<RangeFull>>::gen`: `rng.gen::<i64>()`. -/
def typeparamGenFullI64 (rng : Rng) : Int × Rng := (toI64 (next64 rng).1, (next64 rng).2)

/-- The rejection loop of `<i64 as typeparam::Random<RangeFrom<i64>>>::gen`. -/
def typeparamLoopFromI64 (start : Int) (range' zone : Nat) : Nat → Rng → Option (Int × Rng)
  | 0, _ => none
  | fuel + 1, rng =>
    let p := next64 rng
    if p.1 < zone then some (waddI64 start (toI64 (p.1 % range')), p.2)
    else typeparamLoopFromI64 start range' zone fuel p.2

/-- Rust `<i64 as typeparam::Random<RangeFrom<i64>>>::gen`: the guard compares
`start` against `-::std::i64::MIN`, i.e. the wrapping negation of
`i64::MIN` (which is `i64::MIN` again); on a match, `rng.gen()` directly;
else `range_ = -(i64::MIN.wrapping_add(start)) as u64` and the loop. -/
def typeparamGenRangeFromI64 (start : Int) (fuel : Nat) (rng : Rng) : Option (Int × Rng) :=
  if start = wnegI64 i64MIN then some (toI64 (next64 rng).1, (next64 rng).2)
  else
    let range' := toU64 (wnegI64 (waddI64 i64MIN start))
    let max := U64MOD - 1
    typeparamLoopFromI64 start range' (max - max % range') fuel rng

/-- Rust `<f64 as typeparam::Random<Range<f64>>>::gen`:
`assert!(start < end)` at draw time, then
`range.start + rng.gen() * (range.end - range.start)`; the outer `none`
is the assertion firing. -/
def typeparamGenRangeF64 (start end' : ℚ) (rng : Rng) : Option (ℚ × Rng) :=
  if start < end' then
    let p := nextF64 rng
    some (start + p.1 * (end' - start), p.2)
  else none

/-!
## Observation helpers

`runSeq` threads an entropy source through `k` successive scalar draws,
the harness-level observation used by the spec's sequence-equality and
iterator properties.  `runSeq2` does the same for draws that carry the
assertion layer.  The composed `...GenRange...` functions are the
source-level `gen(rng, lo..hi)` entry points: conversion (with its
assertion) followed by one draw.
-/

def runSeq {α : Type} (step : Rng → Option (α × Rng)) : Nat → Rng → Option (List α × Rng)
  | 0, rng => some ([], rng)
  | k + 1, rng =>
    match step rng with
    | none => none
    | some (x, rng') => (runSeq step k rng').map fun q => (x :: q.1, q.2)

def runSeq2 {α : Type} (step : Rng → Option (Option (α × Rng))) :
    Nat → Rng → Option (Option (List α × Rng))
  | 0, rng => some (some ([], rng))
  | k + 1, rng =>
    match step rng with
    | none => none
    | some none => some none
    | some (some (x, rng')) =>
      match runSeq2 step k rng' with
      | none => none
      | some none => some none
      | some (some (xs, r)) => some (some (x :: xs, r))

/-- Rust `assoc::gen(rng, start..end)` at `u32`: convert, then draw. -/
def assocGenRangeU32 (start end' fuel : Nat) (rng : Rng) : Option (Option (Nat × Rng)) :=
  (assocIntoRangeU32 start end').map fun c => assocGenU32 c fuel rng

/-- Rust `stream::gen(rng, start..end)` at `u32`: build the stream, then draw. -/
def streamGenRangeU32 (start end' fuel : Nat) (rng : Rng) : Option (Option (Nat × Rng)) :=
  (streamRandRangeU32 start end').map fun s => streamNextBoundedU32 s fuel rng

/-- Rust `assoc::gen(rng, start..end)` at `i64`. -/
def assocGenRangeI64 (start end' : Int) (fuel : Nat) (rng : Rng) : Option (Option (Int × Rng)) :=
  (assocIntoRangeI64 start end').map fun c => assocGenI64 c fuel rng

/-- Rust `stream::gen(rng, start..end)` at `i64`. -/
def streamGenRangeI64 (start end' : Int) (fuel : Nat) (rng : Rng) : Option (Option (Int × Rng)) :=
  (streamRandRangeI64 start end').map fun s => streamNextBoundedI64 s fuel rng

/-- Rust `assoc::gen(rng, start..)` at `u32` (no assertion layer). -/
def assocGenRangeFromU32 (start fuel : Nat) (rng : Rng) : Option (Nat × Rng) :=
  assocGenU32 (assocIntoRangeFromU32 start) fuel rng

/-!
## Arithmetic lemmas about the machine-integer model
-/

theorem toU64_toI64 (n : Nat) (h : n < U64MOD) : toU64 (toI64 n) = n := by
  simp only [toU64, toI64, U64MOD] at *
  split <;> omega

theorem toI64_toU64 (x : Int) (h1 : i64MIN ≤ x) (h2 : x ≤ i64MAX) : toI64 (toU64 x) = x := by
  simp only [toU64, toI64, U64MOD, i64MIN, i64MAX] at *
  split <;> omega

theorem toI64_add_mod (lo : Int) (r : Nat) (h1 : i64MIN ≤ lo) (h2 : lo + (r : Int) < 2 ^ 63) :
    toI64 ((toU64 lo + r) % U64MOD) = lo + r := by
  simp only [toU64, toI64, U64MOD, i64MIN] at *
  split <;> omega

theorem toI64_range (n : Nat) (h : n < U64MOD) : i64MIN ≤ toI64 n ∧ toI64 n ≤ i64MAX := by
  simp only [toI64, U64MOD, i64MIN, i64MAX] at *
  split <;> omega

theorem toU64_lt (x : Int) : toU64 x < U64MOD := by
  simp only [toU64, U64MOD]
  omega

/-- Rust `wrapping_add` of an in-range `i64` and a reinterpreted small `u64`
is the assoc-style add-then-reinterpret. -/
theorem waddI64_toI64 (lo : Int) (m : Nat) (h : m < U64MOD) :
    waddI64 lo (toI64 m) = toI64 ((toU64 lo + m) % U64MOD) := by
  simp only [waddI64, toU64_toI64 m h]

/-- The accept zone `max - max % w` is a multiple of `w` and restores
`max` when the discarded remainder is added back. -/
theorem zone_dvd_and_sum (max w : Nat) :
    w ∣ (max - max % w) ∧ (max - max % w) + max % w = max := by
  constructor
  · have h := Nat.div_add_mod max w
    exact ⟨max / w, by omega⟩
  · have := Nat.mod_le max w
    omega

/-- Size of the rejected tail and of the accept zone: for `0 < w ≤ 2^W - 1`
the tail `2^W - zone` is at most `w` and the zone is at least `2^(W-1)`.
Both bounds are tight (witness `w = 2^(W-1)`), so the spec's strict
versions fail. -/
theorem zone_tail_bounds (W w : Nat) (hW : 1 ≤ W) (hw : 0 < w) (hw2 : w ≤ 2 ^ W - 1) :
    2 ^ W - ((2 ^ W - 1) - (2 ^ W - 1) % w) ≤ w ∧
      2 ^ (W - 1) ≤ (2 ^ W - 1) - (2 ^ W - 1) % w := by
  set M := 2 ^ W - 1 with hM
  have hpow : 2 ^ W = 2 * 2 ^ (W - 1) := by
    calc 2 ^ W = 2 ^ (W - 1 + 1) := by rw [Nat.sub_add_cancel hW]
    _ = 2 * 2 ^ (W - 1) := by rw [Nat.pow_succ]; ring
  have hmod : M % w < w := Nat.mod_lt _ hw
  constructor
  · omega
  · rcases le_or_lt w (2 ^ (W - 1)) with hle | hgt
    · omega
    · have h2w : M < 2 * w := by omega
      have : M % w = M - w := by
        rw [Nat.mod_eq_sub_mod (by omega)]
        exact Nat.mod_eq_of_lt (by omega)
      omega

/-- Truncated remainder of `-1` (the `i64` `!0`) by anything other than
`±1` is `-1`; this is what zeroes the stream encoding's `i64` accept
zone. -/
theorem tmod_neg_one (r : Int) (h1 : r ≠ 1) (h2 : r ≠ -1) : Int.tmod (-1) r = -1 := by
  have hneg : (-1 : Int) = Int.negSucc 0 := rfl
  rcases r with n | n
  · rw [hneg]
    show -(Int.ofNat (Nat.succ 0 % n)) = -1
    have hn : n ≠ 1 := by
      intro he
      exact h1 (by simp [he])
    have : Nat.succ 0 % n = 1 := by
      rcases n with _ | _ | n
      · rfl
      · omega
      · exact Nat.mod_eq_of_lt (by omega)
    rw [this]
    rfl
  · rw [hneg]
    show -(Int.ofNat (Nat.succ 0 % Nat.succ n)) = -1
    have hn : n ≠ 0 := by
      intro he
      exact h2 (by simp [he])
    have : Nat.succ 0 % Nat.succ n = 1 := Nat.mod_eq_of_lt (by omega)
    rw [this]
    rfl

/-!
## Loop lemmas

The four `u32` rejection loops (assoc, stream, typeparam `Range`,
typeparam `RangeFrom`) are the same function of `(low, range, zone)`, and
likewise the assoc and typeparam `i64` loops; these pointwise equalities
carry every property proved of `assocLoopU32` / `assocLoopI64` to the
other encodings.
-/

theorem streamLoop_eq_assocLoop (l r z fuel : Nat) (rng : Rng) :
    streamNextBoundedU32 ⟨l, r, z⟩ fuel rng = assocLoopU32 l r z fuel rng := by
  induction fuel generalizing rng with
  | zero => rfl
  | succ n ih =>
    simp only [streamNextBoundedU32, assocLoopU32]
    split
    · rfl
    · exact ih _

theorem typeparamLoopRange_eq_assocLoop (l r z fuel : Nat) (rng : Rng) :
    typeparamLoopRangeU32 l r z fuel rng = assocLoopU32 l r z fuel rng := by
  induction fuel generalizing rng with
  | zero => rfl
  | succ n ih =>
    simp only [typeparamLoopRangeU32, assocLoopU32]
    split
    · rfl
    · exact ih _

theorem typeparamLoopFrom_eq_assocLoop (l r z fuel : Nat) (rng : Rng) :
    typeparamLoopFromU32 l r z fuel rng = assocLoopU32 l r z fuel rng := by
  induction fuel generalizing rng with
  | zero => rfl
  | succ n ih =>
    simp only [typeparamLoopFromU32, assocLoopU32]
    split
    · rfl
    · exact ih _

theorem typeparamLoopRangeI64_eq_assocLoop (lo : Int) (r z fuel : Nat) (rng : Rng) :
    typeparamLoopRangeI64 lo r z fuel rng = assocLoopI64 (toU64 lo) r z fuel rng := by
  induction fuel generalizing rng with
  | zero => rfl
  | succ n ih =>
    simp only [typeparamLoopRangeI64, assocLoopI64]
    split
    · rw [waddI64_toI64]
      exact Nat.lt_of_le_of_lt (Nat.mod_le _ _) (by simp only [next64, U64MOD]; omega)
    · exact ih _

theorem typeparamLoopFromI64_eq_assocLoop (lo : Int) (r z fuel : Nat) (rng : Rng) :
    typeparamLoopFromI64 lo r z fuel rng = assocLoopI64 (toU64 lo) r z fuel rng := by
  induction fuel generalizing rng with
  | zero => rfl
  | succ n ih =>
    simp only [typeparamLoopFromI64, assocLoopI64]
    split
    · rw [waddI64_toI64]
      exact Nat.lt_of_le_of_lt (Nat.mod_le _ _) (by simp only [next64, U64MOD]; omega)
    · exact ih _

/-- Any value accepted by the `u32` rejection loop lies in
`[low, low + range)`, provided the interval fits in 32 bits. -/
theorem assocLoopU32_bounds (low range zone fuel : Nat) (rng : Rng) (x : Nat) (rng' : Rng)
    (hr : 0 < range) (hfit : low + range ≤ U32MOD)
    (h : assocLoopU32 low range zone fuel rng = some (x, rng')) :
    low ≤ x ∧ x < low + range := by
  induction fuel generalizing rng with
  | zero => simp [assocLoopU32] at h
  | succ n ih =>
    simp only [assocLoopU32] at h
    split at h
    · have hmod : (next32 rng).1 % range < range := Nat.mod_lt _ hr
      have hx : x = (low + (next32 rng).1 % range) % U32MOD := by
        injection h with h1
        injection h1 with h2 _
        omega
      rw [hx, Nat.mod_eq_of_lt (by omega)]
      omega
    · exact ih _ h

/-- Any value accepted by the `i64` rejection loop with an in-range
`[lo, lo + range)` interval lies in that interval (and equals
`lo + (v % range)` for the accepted word `v`). -/
theorem assocLoopI64_bounds (lo : Int) (range zone fuel : Nat) (rng : Rng) (x : Int) (rng' : Rng)
    (hr : 0 < range) (hlo : i64MIN ≤ lo) (hfit : lo + (range : Int) ≤ 2 ^ 63)
    (h : assocLoopI64 (toU64 lo) range zone fuel rng = some (x, rng')) :
    lo ≤ x ∧ x < lo + range := by
  induction fuel generalizing rng with
  | zero => simp [assocLoopI64] at h
  | succ n ih =>
    simp only [assocLoopI64] at h
    split at h
    · have hmod : (next64 rng).1 % range < range := Nat.mod_lt _ hr
      have hx : x = toI64 ((toU64 lo + (next64 rng).1 % range) % U64MOD) := by
        injection h with h1
        injection h1 with h2 _
        exact h2.symm
      rw [hx, toI64_add_mod lo _ hlo (by push_cast; omega)]
      push_cast
      omega
    · exact ih _ h

/-- If the word stream first dips below `zone` at index `i`, then with
more than `i - pos` units of fuel the `u32` rejection loop accepts
exactly the word at `i` and leaves the cursor at `i + 1`. -/
theorem assocLoopU32_first_accept (low range zone : Nat) (w : Nat → Nat) (p i : Nat)
    (hpi : p ≤ i) (hacc : w i % U32MOD < zone)
    (hmin : ∀ j, p ≤ j → j < i → ¬ w j % U32MOD < zone)
    (fuel : Nat) (hfuel : i < p + fuel) :
    assocLoopU32 low range zone fuel ⟨w, p⟩ =
      some ((low + w i % U32MOD % range) % U32MOD, ⟨w, i + 1⟩) := by
  induction fuel generalizing p with
  | zero => omega
  | succ n ih =>
    simp only [assocLoopU32, next32]
    rcases Nat.eq_or_lt_of_le hpi with he | hlt
    · rw [if_pos (he ▸ hacc), he]
    · rw [if_neg (hmin p le_rfl hlt)]
      exact ih (p + 1) hlt (fun j hj1 hj2 => hmin j (by omega) hj2) (by omega)

/-- The `i64` analogue of `assocLoopU32_first_accept`. -/
theorem assocLoopI64_first_accept (low range zone : Nat) (w : Nat → Nat) (p i : Nat)
    (hpi : p ≤ i) (hacc : w i % U64MOD < zone)
    (hmin : ∀ j, p ≤ j → j < i → ¬ w j % U64MOD < zone)
    (fuel : Nat) (hfuel : i < p + fuel) :
    assocLoopI64 low range zone fuel ⟨w, p⟩ =
      some (toI64 ((low + w i % U64MOD % range) % U64MOD), ⟨w, i + 1⟩) := by
  induction fuel generalizing p with
  | zero => omega
  | succ n ih =>
    simp only [assocLoopI64, next64]
    rcases Nat.eq_or_lt_of_le hpi with he | hlt
    · rw [if_pos (he ▸ hacc), he]
    · rw [if_neg (hmin p le_rfl hlt)]
      exact ih (p + 1) hlt (fun j hj1 hj2 => hmin j (by omega) hj2) (by omega)

/-- When the transmuted accept zone is `0` — which the stream encoding
produces for every `i64` width other than `1` and `2^64 - 1` — the
bounded `i64` stream rejects every word and never returns. -/
theorem streamNextBoundedI64_zone_zero (s : IntegerStreamBoundedI64)
    (hz : toU64 s.accept_zone = 0) (fuel : Nat) (rng : Rng) :
    streamNextBoundedI64 s fuel rng = none := by
  induction fuel generalizing rng with
  | zero => rfl
  | succ n ih =>
    simp only [streamNextBoundedI64, hz]
    rw [if_neg (by omega)]
    exact ih _

/-!
## Single-draw equivalences between the encodings
-/

theorem streamGenRangeU32_eq_assoc (s e fuel : Nat) (rng : Rng) :
    streamGenRangeU32 s e fuel rng = assocGenRangeU32 s e fuel rng := by
  simp only [streamGenRangeU32, assocGenRangeU32, streamRandRangeU32, assocIntoRangeU32]
  by_cases h : s < e
  · simp only [if_pos h, Option.map_some', assocGenU32]
    rw [streamLoop_eq_assocLoop]
  · simp only [if_neg h, Option.map_none']

theorem typeparamGenRangeU32_eq_assoc (s e fuel : Nat) (rng : Rng) :
    typeparamGenRangeU32 s e fuel rng = assocGenRangeU32 s e fuel rng := by
  simp only [typeparamGenRangeU32, assocGenRangeU32, assocIntoRangeU32]
  by_cases h : s < e
  · simp only [if_pos h, Option.map_some', assocGenU32]
    rw [typeparamLoopRange_eq_assocLoop]
  · simp only [if_neg h, Option.map_none']

theorem typeparamGenRangeI64_eq_assoc (s e : Int) (fuel : Nat) (rng : Rng) :
    typeparamGenRangeI64 s e fuel rng = assocGenRangeI64 s e fuel rng := by
  simp only [typeparamGenRangeI64, assocGenRangeI64, assocIntoRangeI64]
  by_cases h : s < e
  · simp only [if_pos h, Option.map_some', assocGenI64]
    rw [typeparamLoopRangeI64_eq_assocLoop]
  · simp only [if_neg h, Option.map_none']

theorem typeparamGenRangeFromU32_eq_assoc (s fuel : Nat) (rng : Rng) :
    typeparamGenRangeFromU32 s fuel rng = assocGenRangeFromU32 s fuel rng := by
  simp only [typeparamGenRangeFromU32, assocGenRangeFromU32, assocIntoRangeFromU32]
  by_cases h : s = 0
  · simp only [if_pos h, assocGenU32]
  · simp only [if_neg h, assocGenU32]
    rw [typeparamLoopFrom_eq_assocLoop]

theorem runSeq2_congr {α : Type} (f g : Rng → Option (Option (α × Rng)))
    (h : ∀ rng, f rng = g rng) (k : Nat) (rng : Rng) :
    runSeq2 f k rng = runSeq2 g k rng := by
  rw [funext h]

/-- Inversion for the bounded `i64` stream draw: a returned value comes
from some raw word below the (transmuted) accept zone. -/
theorem streamNextBoundedI64_some (s : IntegerStreamBoundedI64) (fuel : Nat) (rng : Rng)
    (x : Int) (rng' : Rng) (h : streamNextBoundedI64 s fuel rng = some (x, rng')) :
    ∃ v : Nat, v < toU64 s.accept_zone ∧ v < U64MOD ∧
      x = waddI64 s.low (toI64 (v % toU64 s.range)) := by
  induction fuel generalizing rng with
  | zero => simp [streamNextBoundedI64] at h
  | succ n ih =>
    simp only [streamNextBoundedI64] at h
    split at h
    · refine ⟨(next64 rng).1, by assumption, ?_, ?_⟩
      · simp only [next64, U64MOD]
        omega
      · injection h with h1
        injection h1 with h2 _
        exact h2.symm
    · exact ih _ h

/-- Bounds for the composed `assoc` `u32` `HalfOpen` draw. -/
theorem assocGenRangeU32_bounds (s e fuel : Nat) (rng : Rng) (x : Nat) (rng' : Rng)
    (he : e < U32MOD) (h : assocGenRangeU32 s e fuel rng = some (some (x, rng'))) :
    s ≤ x ∧ x < e := by
  simp only [assocGenRangeU32, assocIntoRangeU32] at h
  by_cases hse : s < e
  · rw [if_pos hse] at h
    simp only [Option.map_some', assocGenU32, Option.some.injEq] at h
    have := assocLoopU32_bounds s (e - s) _ fuel rng x rng' (by omega) (by omega) h
    omega
  · rw [if_neg hse] at h
    simp at h

/-- Bounds for the composed `assoc` `i64` `HalfOpen` draw. -/
theorem assocGenRangeI64_bounds (s e : Int) (fuel : Nat) (rng : Rng) (x : Int) (rng' : Rng)
    (hs : i64MIN ≤ s) (he : e ≤ i64MAX)
    (h : assocGenRangeI64 s e fuel rng = some (some (x, rng'))) : s ≤ x ∧ x < e := by
  simp only [assocGenRangeI64, assocIntoRangeI64] at h
  by_cases hse : s < e
  · rw [if_pos hse] at h
    simp only [Option.map_some', assocGenI64, Option.some.injEq] at h
    have hrange : toU64 (wsubI64 e s) = (e - s).toNat := by
      simp only [wsubI64]
      rw [toU64_toI64]
      · simp only [toU64, U64MOD, i64MIN, i64MAX] at *
        omega
      · simp only [toU64, U64MOD, i64MIN, i64MAX] at *
        omega
    rw [hrange] at h
    have hb := assocLoopI64_bounds s ((e - s).toNat) _ fuel rng x rng'
        (by simp only [i64MIN, i64MAX] at *; omega) hs
        (by simp only [i64MIN, i64MAX] at *; push_cast; omega) h
    refine ⟨hb.1, ?_⟩
    have := hb.2
    simp only [i64MIN, i64MAX] at *
    omega
  · rw [if_neg hse] at h
    simp at h

/-- Bounds for the `assoc` `u32` `From` draw: values stay in
`[start, 2^32)`. -/
theorem assocGenRangeFromU32_bounds (s fuel : Nat) (rng : Rng) (x : Nat) (rng' : Rng)
    (hs : s < U32MOD) (h : assocGenRangeFromU32 s fuel rng = some (x, rng')) :
    s ≤ x ∧ x ≤ U32MOD - 1 := by
  simp only [assocGenRangeFromU32, assocIntoRangeFromU32] at h
  by_cases h0 : s = 0
  · rw [if_pos h0] at h
    simp only [assocGenU32, Option.some.injEq, next32] at h
    have hx : x = rng.words rng.pos % U32MOD := by
      injection h with h1 h2
      exact h1.symm
    subst h0
    simp only [U32MOD] at *
    omega
  · rw [if_neg h0] at h
    simp only [assocGenU32] at h
    have hwneg : wnegU32 s = U32MOD - s := by
      simp only [wnegU32]
      rw [Nat.mod_eq_of_lt hs, Nat.mod_eq_of_lt (by omega)]
    rw [hwneg] at h
    have := assocLoopU32_bounds s (U32MOD - s) _ fuel rng x rng' (by omega) (by omega) h
    omega

/-- Bounds for the `stream` `i64` `HalfOpen` draw.  The accept zone is
`0` for every width other than `1` and `2^64 - 1` (so a value is only
ever returned in those two widths), and in the two live widths the value
is in range. -/
theorem streamGenRangeI64_bounds (s e : Int) (fuel : Nat) (rng : Rng) (x : Int) (rng' : Rng)
    (hs : i64MIN ≤ s) (he : e ≤ i64MAX)
    (h : streamGenRangeI64 s e fuel rng = some (some (x, rng'))) : s ≤ x ∧ x < e := by
  simp only [streamGenRangeI64, streamRandRangeI64] at h
  by_cases hse : s < e
  · rw [if_pos hse] at h
    simp only [Option.map_some', Option.some.injEq] at h
    obtain ⟨v, hv1, hv2, hx⟩ := streamNextBoundedI64_some _ fuel rng x rng' h
    simp only at hv1 hx
    have hwidth : toU64 (e - s) = (e - s).toNat := by
      simp only [toU64, U64MOD, i64MIN, i64MAX] at *
      omega
    have hrange : wsubI64 e s = toI64 ((e - s).toNat) := by rw [wsubI64, hwidth]
    rw [hrange] at hv1 hx
    have hWlo : 1 ≤ (e - s).toNat := by
      simp only [i64MIN, i64MAX] at *
      omega
    by_cases hW1 : (e - s).toNat = 1
    · rw [hW1] at hv1 hx
      have h1 : toI64 1 = 1 := by decide
      rw [h1] at hv1 hx
      have h2 : toU64 1 = 1 := by decide
      rw [h2, Nat.mod_one] at hx
      have h3 : toI64 0 = 0 := by decide
      rw [h3] at hx
      have h4 : waddI64 s 0 = s := by
        simp only [waddI64]
        have h5 : toU64 (0 : Int) = 0 := by decide
        rw [h5, Nat.add_zero, Nat.mod_eq_of_lt (toU64_lt s)]
        exact toI64_toU64 s hs (by simp only [i64MIN, i64MAX] at *; omega)
      rw [h4] at hx
      omega
    · by_cases hWmax : (e - s).toNat = U64MOD - 1
      · have hse' : s = i64MIN ∧ e = i64MAX := by
          simp only [U64MOD, i64MIN, i64MAX] at *
          omega
        obtain ⟨hs', he'⟩ := hse'
        rw [hWmax] at hv1 hx
        have h1 : toI64 (U64MOD - 1) = -1 := by decide
        rw [h1] at hv1 hx
        have h2 : Int.tmod (-1) (-1) = 0 := by decide
        rw [h2] at hv1
        have h3 : toU64 (-1 - 0 : Int) = U64MOD - 1 := by decide
        rw [h3] at hv1
        have h4 : toU64 (-1 : Int) = U64MOD - 1 := by decide
        rw [h4] at hx
        rw [Nat.mod_eq_of_lt hv1] at hx
        rw [hs'] at hx
        have h5 : toU64 i64MIN = 2 ^ 63 := by decide
        have h6 : waddI64 i64MIN (toI64 v) = toI64 ((2 ^ 63 + v) % U64MOD) := by
          simp only [waddI64, h5, toU64_toI64 v hv2]
        rw [h6] at hx
        subst hx hs' he'
        simp only [toI64, U64MOD, i64MIN, i64MAX] at *
        split <;> omega
      · have hz : Int.tmod (-1) (toI64 ((e - s).toNat)) = -1 := by
          apply tmod_neg_one
          · simp only [toI64, U64MOD, i64MIN, i64MAX] at *
            split <;> omega
          · simp only [toI64, U64MOD, i64MIN, i64MAX] at *
            split <;> omega
        rw [hz] at hv1
        have h0 : toU64 (-1 - -1 : Int) = 0 := by decide
        rw [h0] at hv1
        omega
  · rw [if_neg hse] at h
    simp at h

/-- For in-range `i64` endpoints the stored unsigned width is the exact
interval length `hi - lo`. -/
theorem toU64_wsubI64 (s e : Int) (hs : i64MIN ≤ s) (hse : s < e) (he : e ≤ i64MAX) :
    toU64 (wsubI64 e s) = (e - s).toNat := by
  simp only [wsubI64]
  rw [toU64_toI64]
  · simp only [toU64, U64MOD, i64MIN, i64MAX] at *
    omega
  · simp only [toU64, U64MOD, i64MIN, i64MAX] at *
    omega

/-!
## Claim theorems
-/

/-- C2. For every `HalfOpen(lo, hi)` integer range with `lo < hi` (at
the machine type), every entropy source and every encoding, a returned
draw `x` satisfies `lo ≤ x < hi`; and for `From(lo)` on `u32` a returned
draw satisfies `lo ≤ x ≤ 2^32 - 1`.  (For the stream `i64` encoding the
accept zone is usually `0`, so a value is returned only for widths `1`
and `2^64 - 1`; those returns are in range, so the bound claim holds for
it as well.) -/
theorem C2_bounded_draws_in_range :
    (∀ s e fuel : Nat, ∀ rng : Rng, ∀ x : Nat, ∀ rng' : Rng, e < U32MOD →
        assocGenRangeU32 s e fuel rng = some (some (x, rng')) → s ≤ x ∧ x < e) ∧
    (∀ s e fuel : Nat, ∀ rng : Rng, ∀ x : Nat, ∀ rng' : Rng, e < U32MOD →
        streamGenRangeU32 s e fuel rng = some (some (x, rng')) → s ≤ x ∧ x < e) ∧
    (∀ s e fuel : Nat, ∀ rng : Rng, ∀ x : Nat, ∀ rng' : Rng, e < U32MOD →
        typeparamGenRangeU32 s e fuel rng = some (some (x, rng')) → s ≤ x ∧ x < e) ∧
    (∀ s e : Int, ∀ fuel : Nat, ∀ rng : Rng, ∀ x : Int, ∀ rng' : Rng,
        i64MIN ≤ s → e ≤ i64MAX →
        assocGenRangeI64 s e fuel rng = some (some (x, rng')) → s ≤ x ∧ x < e) ∧
    (∀ s e : Int, ∀ fuel : Nat, ∀ rng : Rng, ∀ x : Int, ∀ rng' : Rng,
        i64MIN ≤ s → e ≤ i64MAX →
        typeparamGenRangeI64 s e fuel rng = some (some (x, rng')) → s ≤ x ∧ x < e) ∧
    (∀ s e : Int, ∀ fuel : Nat, ∀ rng : Rng, ∀ x : Int, ∀ rng' : Rng,
        i64MIN ≤ s → e ≤ i64MAX →
        streamGenRangeI64 s e fuel rng = some (some (x, rng')) → s ≤ x ∧ x < e) ∧
    (∀ s fuel : Nat, ∀ rng : Rng, ∀ x : Nat, ∀ rng' : Rng, s < U32MOD →
        assocGenRangeFromU32 s fuel rng = some (x, rng') → s ≤ x ∧ x ≤ U32MOD - 1) ∧
    (∀ s fuel : Nat, ∀ rng : Rng, ∀ x : Nat, ∀ rng' : Rng, s < U32MOD →
        typeparamGenRangeFromU32 s fuel rng = some (x, rng') → s ≤ x ∧ x ≤ U32MOD - 1) := by
  refine ⟨assocGenRangeU32_bounds, ?_, ?_, assocGenRangeI64_bounds, ?_,
    streamGenRangeI64_bounds, assocGenRangeFromU32_bounds, ?_⟩
  · intro s e fuel rng x rng' he h
    rw [streamGenRangeU32_eq_assoc] at h
    exact assocGenRangeU32_bounds s e fuel rng x rng' he h
  · intro s e fuel rng x rng' he h
    rw [typeparamGenRangeU32_eq_assoc] at h
    exact assocGenRangeU32_bounds s e fuel rng x rng' he h
  · intro s e fuel rng x rng' hs he h
    rw [typeparamGenRangeI64_eq_assoc] at h
    exact assocGenRangeI64_bounds s e fuel rng x rng' hs he h
  · intro s fuel rng x rng' hs h
    rw [typeparamGenRangeFromU32_eq_assoc] at h
    exact assocGenRangeFromU32_bounds s fuel rng x rng' hs h

/-- Witness for C2 at `HalfOpen(4, 321)` over `u32` with the all-zero
entropy source. -/
theorem C2_bounded_draws_in_range_witness : 4 ≤ 4 ∧ 4 < 321 :=
  C2_bounded_draws_in_range.1 4 321 1 ⟨fun _ => 0, 0⟩ 4 ⟨fun _ => 0, 1⟩
    (by decide) (by rfl)

/-- C1. The claim: for every target type and every range descriptor
supported by all three encodings, identically-seeded entropy sources make
encodings A (assoc), B (stream) and C (typeparam) produce identical value
sequences.  This holds for `u32` (`Full` and `HalfOpen`, the shapes all
three support) and for the `i64` `Full` shape, and assoc and typeparam
also agree on `i64` `HalfOpen`; but the stream encoding's `i64`
`HalfOpen` constructor computes its accept zone in signed arithmetic
(`max = !0` is inferred at `i64`), so for `HalfOpen(-5, 5)` the cached
zone is `0` and the stream draw rejects every raw word and never produces
a value, while assoc and typeparam produce `2` from the raw word `7`.
The claim (and the spec's intent) is right; the stream `i64` zone
computation is the slip. -/
theorem C1_encodings_agree_except_stream_i64 :
    (∀ s e fuel k : Nat, ∀ rng : Rng,
        runSeq2 (streamGenRangeU32 s e fuel) k rng = runSeq2 (assocGenRangeU32 s e fuel) k rng ∧
        runSeq2 (typeparamGenRangeU32 s e fuel) k rng =
          runSeq2 (assocGenRangeU32 s e fuel) k rng) ∧
    (∀ fuel : Nat, ∀ rng : Rng,
        assocGenU32 .Full fuel rng = some (streamNextFullU32 rng) ∧
        typeparamGenFullU32 rng = streamNextFullU32 rng) ∧
    (∀ s e : Int, ∀ fuel k : Nat, ∀ rng : Rng,
        runSeq2 (typeparamGenRangeI64 s e fuel) k rng =
          runSeq2 (assocGenRangeI64 s e fuel) k rng) ∧
    (∀ fuel : Nat, ∀ rng : Rng,
        assocGenI64 .Full fuel rng = some (streamNextFullI64 rng) ∧
        typeparamGenFullI64 rng = streamNextFullI64 rng) ∧
    streamRandRangeI64 (-5) 5 = some ⟨-5, 10, 0⟩ ∧
    (∀ fuel : Nat, ∀ rng : Rng, streamGenRangeI64 (-5) 5 fuel rng = some none) ∧
    (assocGenRangeI64 (-5) 5 1 ⟨fun _ => 7, 0⟩).map (Option.map fun p => (p.1, p.2.pos)) =
      some (some (2, 1)) ∧
    (typeparamGenRangeI64 (-5) 5 1 ⟨fun _ => 7, 0⟩).map (Option.map fun p => (p.1, p.2.pos)) =
      some (some (2, 1)) := by
  refine ⟨?_, ?_, ?_, ?_, ?_, ?_, ?_, ?_⟩
  · intro s e fuel k rng
    exact ⟨runSeq2_congr _ _ (streamGenRangeU32_eq_assoc s e fuel) k rng,
           runSeq2_congr _ _ (typeparamGenRangeU32_eq_assoc s e fuel) k rng⟩
  · intro fuel rng
    exact ⟨rfl, rfl⟩
  · intro s e fuel k rng
    exact runSeq2_congr _ _ (typeparamGenRangeI64_eq_assoc s e fuel) k rng
  · intro fuel rng
    exact ⟨rfl, rfl⟩
  · decide
  · intro fuel rng
    simp only [streamGenRangeI64]
    rw [show streamRandRangeI64 (-5) 5 = some ⟨-5, 10, 0⟩ from by decide]
    simp only [Option.map_some']
    rw [streamNextBoundedI64_zone_zero _ (by decide) fuel rng]
  · decide
  · decide

/-- C3. The claim: every constraint constructed from a valid
`HalfOpen(lo, hi)` has width `hi - lo` (unsigned image), an accept zone
divisible by the width, and `accept_zone + (MAX mod width) = MAX`.  This
holds for the assoc `u32`/`i64` constructions and the stream `u32`
construction, but the stream `i64` construction computes its zone in
signed arithmetic: for `HalfOpen(-5, 5)` the cached zone transmutes to
`0`, and `0 + (MAX mod 10) ≠ MAX`.  The claim matches the spec's stated
data-model invariant; the stream `i64` zone computation is the slip. -/
theorem C3_accept_zone_equations_except_stream_i64 :
    (∀ s e : Nat, s < e →
        ∃ z, assocIntoRangeU32 s e = some (.Bounded s (e - s) z) ∧
          (e - s) ∣ z ∧ z + (U32MOD - 1) % (e - s) = U32MOD - 1) ∧
    (∀ s e : Nat, s < e →
        ∃ z, streamRandRangeU32 s e = some ⟨s, e - s, z⟩ ∧
          (e - s) ∣ z ∧ z + (U32MOD - 1) % (e - s) = U32MOD - 1) ∧
    (∀ s e : Int, i64MIN ≤ s → s < e → e ≤ i64MAX →
        ∃ z, assocIntoRangeI64 s e = some (.Bounded (toU64 s) ((e - s).toNat) z) ∧
          (e - s).toNat ∣ z ∧ z + (U64MOD - 1) % (e - s).toNat = U64MOD - 1) ∧
    (streamRandRangeI64 (-5) 5 = some ⟨-5, 10, 0⟩ ∧
      toU64 (0 : Int) = 0 ∧ ¬ 0 + (U64MOD - 1) % 10 = U64MOD - 1) := by
  refine ⟨?_, ?_, ?_, by decide, by decide, by decide⟩
  · intro s e hse
    refine ⟨_, ?_, (zone_dvd_and_sum (U32MOD - 1) (e - s)).1, ?_⟩
    · simp only [assocIntoRangeU32, if_pos hse]
    · have := (zone_dvd_and_sum (U32MOD - 1) (e - s)).2
      omega
  · intro s e hse
    refine ⟨_, ?_, (zone_dvd_and_sum (U32MOD - 1) (e - s)).1, ?_⟩
    · simp only [streamRandRangeU32, if_pos hse]
    · have := (zone_dvd_and_sum (U32MOD - 1) (e - s)).2
      omega
  · intro s e hs hse he
    refine ⟨_, ?_, (zone_dvd_and_sum (U64MOD - 1) ((e - s).toNat)).1, ?_⟩
    · simp only [assocIntoRangeI64, if_pos hse, toU64_wsubI64 s e hs hse he]
    · have := (zone_dvd_and_sum (U64MOD - 1) ((e - s).toNat)).2
      omega

/-- Witness for C3 at `HalfOpen(4, 321)` over `u32`. -/
theorem C3_accept_zone_equations_witness :
    ∃ z, assocIntoRangeU32 4 321 = some (.Bounded 4 (321 - 4) z) ∧
      (321 - 4) ∣ z ∧ z + (U32MOD - 1) % (321 - 4) = U32MOD - 1 :=
  C3_accept_zone_equations_except_stream_i64.1 4 321 (by decide)

/-- C4 counterexample. The claim states that `HalfOpen(4, 321)` over
`u32` yields `accept_zone = 4294967258` (i.e. `4294967295 mod 317 = 37`).
Evaluating the construction: `4294967295 mod 317 = 231`, so the zone is
`4294967064`, not `4294967258`. -/
theorem C4_accept_zone_counterexample :
    assocIntoRangeU32 4 321 = some (.Bounded 4 317 4294967064) ∧
      (4294967064 : Nat) ≠ 4294967258 := by
  exact ⟨by decide, by decide⟩

/-- C4 amended. `HalfOpen(4, 321)` over `u32` gives width `317` and
`accept_zone = 4294967064`; the raw word `4294967259` still lies in the
rejected tail, so entropy `[4294967259, 100, ...]` consumes two words and
returns `4 + 100 mod 317 = 104`, and entropy `[0, ...]` returns `4` from
one word. -/
theorem C4_halfopen_4_321_amended :
    assocIntoRangeU32 4 321 = some (.Bounded 4 317 4294967064) ∧
    (4294967064 : Nat) ≤ 4294967259 ∧
    (assocGenU32 (.Bounded 4 317 4294967064) 2
        ⟨fun n => if n = 0 then 4294967259 else 100, 0⟩).map (fun p => (p.1, p.2.pos)) =
      some (104, 2) ∧
    (assocGenU32 (.Bounded 4 317 4294967064) 1 ⟨fun _ => 0, 0⟩).map (fun p => (p.1, p.2.pos)) =
      some (4, 1) := by
  exact ⟨by decide, by decide, by decide, by decide⟩

/-- C5 counterexample. The claim asserts the strict bounds
`2^W - accept_zone < width` and `accept_zone > 2^(W-1)`.  Width `2`
violates the first (`2^32 - 4294967294 = 2`), and width `2^31` violates
the second (`accept_zone = 2^31` exactly, rejection probability exactly
one half). -/
theorem C5_strict_rejection_bound_counterexample :
    (assocIntoRangeU32 0 2 = some (.Bounded 0 2 4294967294) ∧
      ¬ U32MOD - 4294967294 < 2 - 0) ∧
    (assocIntoRangeU32 0 (2 ^ 31) = some (.Bounded 0 (2 ^ 31) (2 ^ 31)) ∧
      ¬ 2 ^ 31 < (2 ^ 31 : Nat)) := by
  exact ⟨⟨by decide, by decide⟩, ⟨by decide, by decide⟩⟩

/-- C5 amended. For every bounded constraint built by the assoc
`u32`/`i64` or stream `u32` constructions from a valid machine-type
range, the rejected tail satisfies `2^W - accept_zone ≤ width` and
`accept_zone ≥ 2^(W-1)` (so the rejection probability is at most
`width / 2^W` and at most one half); both bounds are tight. -/
theorem C5_rejection_bound_amended :
    (∀ s e : Nat, s < e → e < U32MOD →
        ∃ z, assocIntoRangeU32 s e = some (.Bounded s (e - s) z) ∧
          U32MOD - z ≤ e - s ∧ 2 ^ 31 ≤ z) ∧
    (∀ s e : Nat, s < e → e < U32MOD →
        ∃ z, streamRandRangeU32 s e = some ⟨s, e - s, z⟩ ∧
          U32MOD - z ≤ e - s ∧ 2 ^ 31 ≤ z) ∧
    (∀ s e : Int, i64MIN ≤ s → s < e → e ≤ i64MAX →
        ∃ z, assocIntoRangeI64 s e = some (.Bounded (toU64 s) ((e - s).toNat) z) ∧
          U64MOD - z ≤ (e - s).toNat ∧ 2 ^ 63 ≤ z) := by
  have h32 : ∀ s e : Nat, s < e → e < U32MOD →
      U32MOD - ((U32MOD - 1) - (U32MOD - 1) % (e - s)) ≤ e - s ∧
        2 ^ 31 ≤ (U32MOD - 1) - (U32MOD - 1) % (e - s) := by
    intro s e hse he
    have := zone_tail_bounds 32 (e - s) (by omega) (by omega)
        (by simp only [U32MOD] at *; omega)
    simp only [U32MOD] at *
    norm_num at this ⊢
    omega
  have h64 : ∀ wd : Nat, 0 < wd → wd ≤ U64MOD - 1 →
      U64MOD - ((U64MOD - 1) - (U64MOD - 1) % wd) ≤ wd ∧
        2 ^ 63 ≤ (U64MOD - 1) - (U64MOD - 1) % wd := by
    intro wd h1 h2
    have := zone_tail_bounds 64 wd (by omega) h1 (by simp only [U64MOD] at *; omega)
    simp only [U64MOD] at *
    norm_num at this ⊢
    omega
  refine ⟨?_, ?_, ?_⟩
  · intro s e hse he
    exact ⟨_, by simp only [assocIntoRangeU32, if_pos hse], h32 s e hse he⟩
  · intro s e hse he
    exact ⟨_, by simp only [streamRandRangeU32, if_pos hse], h32 s e hse he⟩
  · intro s e hs hse he
    refine ⟨(U64MOD - 1) - (U64MOD - 1) % ((e - s).toNat), ?_, ?_⟩
    · simp only [assocIntoRangeI64, if_pos hse, toU64_wsubI64 s e hs hse he]
    · exact h64 ((e - s).toNat) (by simp only [i64MIN, i64MAX] at *; omega)
        (by simp only [U64MOD, i64MIN, i64MAX] at *; omega)

/-- Witness for the amended C5 at `HalfOpen(4, 321)` over `u32`. -/
theorem C5_rejection_bound_amended_witness :
    ∃ z, assocIntoRangeU32 4 321 = some (.Bounded 4 (321 - 4) z) ∧
      U32MOD - z ≤ 321 - 4 ∧ 2 ^ 31 ≤ z :=
  C5_rejection_bound_amended.1 4 321 (by decide) (by decide)

/-- C6 counterexample. The claim says construction fails exactly when
`hi ≤ lo` and that draws never fail.  But the assoc `f64` conversion
stores the empty range `1.0..0.0` without any check (construction
succeeds although `hi ≤ lo`), and the typeparam `f64` draw — whose
constraint is the raw range, so nothing was checked earlier — runs the
`assert!` at draw time and aborts; the typeparam `u32` draw on `5..3`
aborts at draw time as well. -/
theorem C6_construction_failure_counterexample :
    assocIntoRangeF64 1 0 = some (1, 0) ∧ (0 : ℚ) ≤ 1 ∧
    typeparamGenRangeF64 1 0 ⟨fun _ => 0, 0⟩ = none ∧
    typeparamGenRangeU32 5 3 1 ⟨fun _ => 0, 0⟩ = none := by
  refine ⟨rfl, by norm_num, ?_, ?_⟩
  · simp only [typeparamGenRangeF64]
    rw [if_neg (by norm_num)]
  · simp only [typeparamGenRangeU32]
    rw [if_neg (by norm_num)]

/-- C6 amended. The integer `HalfOpen` constructions (assoc and
stream, `u32` and `i64`) abort exactly when `hi ≤ lo`; the typeparam
encoding has no construction step and instead re-checks the precondition
inside every draw, so its `u32`, `i64` and `f64` draws abort exactly when
`hi ≤ lo`; the assoc `f64` conversion performs no check at all (it always
returns a constraint) and the assoc `f64` draw completes
unconditionally. -/
theorem C6_failure_conditions_amended :
    (∀ s e : Nat, (assocIntoRangeU32 s e = none ↔ e ≤ s)) ∧
    (∀ s e : Nat, (streamRandRangeU32 s e = none ↔ e ≤ s)) ∧
    (∀ s e : Int, (assocIntoRangeI64 s e = none ↔ e ≤ s)) ∧
    (∀ s e : Int, (streamRandRangeI64 s e = none ↔ e ≤ s)) ∧
    (∀ s e fuel : Nat, ∀ rng : Rng, (typeparamGenRangeU32 s e fuel rng = none ↔ e ≤ s)) ∧
    (∀ s e : Int, ∀ fuel : Nat, ∀ rng : Rng,
        (typeparamGenRangeI64 s e fuel rng = none ↔ e ≤ s)) ∧
    (∀ s e : ℚ, ∀ rng : Rng, (typeparamGenRangeF64 s e rng = none ↔ e ≤ s)) ∧
    (∀ s e : ℚ, assocIntoRangeF64 s e = some (s, e)) ∧
    (∀ s e : ℚ, ∀ rng : Rng,
        assocGenF64 (assocIntoRangeF64 s e) rng =
          (s + (nextF64 rng).1 * (e - s), (nextF64 rng).2)) := by
  refine ⟨?_, ?_, ?_, ?_, ?_, ?_, ?_, fun s e => rfl, fun s e rng => rfl⟩
  · intro s e
    by_cases h : s < e
    · simp only [assocIntoRangeU32, if_pos h]
      exact iff_of_false (by simp) (not_le.mpr h)
    · simp only [assocIntoRangeU32, if_neg h]
      exact iff_of_true trivial (not_lt.mp h)
  · intro s e
    by_cases h : s < e
    · simp only [streamRandRangeU32, if_pos h]
      exact iff_of_false (by simp) (not_le.mpr h)
    · simp only [streamRandRangeU32, if_neg h]
      exact iff_of_true trivial (not_lt.mp h)
  · intro s e
    by_cases h : s < e
    · simp only [assocIntoRangeI64, if_pos h]
      exact iff_of_false (by simp) (not_le.mpr h)
    · simp only [assocIntoRangeI64, if_neg h]
      exact iff_of_true trivial (not_lt.mp h)
  · intro s e
    by_cases h : s < e
    · simp only [streamRandRangeI64, if_pos h]
      exact iff_of_false (by simp) (not_le.mpr h)
    · simp only [streamRandRangeI64, if_neg h]
      exact iff_of_true trivial (not_lt.mp h)
  · intro s e fuel rng
    by_cases h : s < e
    · simp only [typeparamGenRangeU32, if_pos h]
      exact iff_of_false (by simp) (not_le.mpr h)
    · simp only [typeparamGenRangeU32, if_neg h]
      exact iff_of_true trivial (not_lt.mp h)
  · intro s e fuel rng
    by_cases h : s < e
    · simp only [typeparamGenRangeI64, if_pos h]
      exact iff_of_false (by simp) (not_le.mpr h)
    · simp only [typeparamGenRangeI64, if_neg h]
      exact iff_of_true trivial (not_lt.mp h)
  · intro s e rng
    by_cases h : s < e
    · simp only [typeparamGenRangeF64, if_pos h]
      exact iff_of_false (by simp) (not_le.mpr h)
    · simp only [typeparamGenRangeF64, if_neg h]
      exact iff_of_true trivial (not_lt.mp h)

/-- Witness for the amended C6: the `u32` construction on `5..3` aborts,
and `3 ≤ 5`. -/
theorem C6_failure_conditions_amended_witness : assocIntoRangeU32 5 3 = none :=
  (C6_failure_conditions_amended.1 5 3).mpr (by decide)

/-- C7. `From(0)` on `u32` and `From(i64::MIN)` on `i64` resolve to
the unbounded path in both encodings that support `From` (assoc builds
the `Full` constraint, typeparam returns directly): the draw returns the
next raw word with no rejection loop.  For typeparam `i64` the guard
compares against the wrapping negation of `i64::MIN`, which equals
`i64::MIN`, so it fires at `i64::MIN` exactly as assoc's guard does. -/
theorem C7_degenerate_from_unbounded :
    assocIntoRangeFromU32 0 = .Full ∧
    assocIntoRangeFromI64 i64MIN = .Full ∧
    (∀ fuel : Nat, ∀ rng : Rng, assocGenU32 .Full fuel rng = some (next32 rng)) ∧
    (∀ fuel : Nat, ∀ rng : Rng,
        assocGenI64 .Full fuel rng = some (toI64 (next64 rng).1, (next64 rng).2)) ∧
    (∀ fuel : Nat, ∀ rng : Rng, typeparamGenRangeFromU32 0 fuel rng = some (next32 rng)) ∧
    (∀ fuel : Nat, ∀ rng : Rng,
        typeparamGenRangeFromI64 i64MIN fuel rng = some (toI64 (next64 rng).1, (next64 rng).2)) := by
  refine ⟨by decide, by decide, fun fuel rng => rfl, fun fuel rng => rfl,
    fun fuel rng => rfl, ?_⟩
  intro fuel rng
  simp only [typeparamGenRangeFromI64]
  rw [if_pos (by decide)]

/-- C8. The assoc iterator's `next` is `Some(gen(..))`: whenever the
embedded call completes, the yielded element is a value, never the
terminal `None`; and taking `k` elements from an iterator seeded with an
entropy source equals `k` scalar `gen` draws threaded through the same
source. -/
theorem C8_iterator_total_and_take_eq_scalar :
    (∀ it : GenIterU32, ∀ fuel : Nat, ∀ r : Option Nat × GenIterU32,
        genIterNextU32 it fuel = some r → r.1.isSome = true) ∧
    (∀ c : IntegerConstraint, ∀ fuel k : Nat, ∀ rng : Rng,
        genIterTakeU32 fuel k ⟨c, rng⟩ =
          (runSeq (assocGenU32 c fuel) k rng).map fun q => (q.1, ⟨c, q.2⟩)) := by
  constructor
  · intro it fuel r h
    simp only [genIterNextU32] at h
    split at h
    · exact absurd h (by simp)
    · injection h with h1
      rw [← h1]
      rfl
  · intro c fuel k
    induction k with
    | zero => intro rng; rfl
    | succ n ih =>
      intro rng
      cases hstep : assocGenU32 c fuel rng with
      | none => simp [genIterTakeU32, genIterNextU32, runSeq, hstep]
      | some p =>
        obtain ⟨x, rng'⟩ := p
        simp only [genIterTakeU32, genIterNextU32, runSeq, hstep]
        rw [ih rng']
        cases runSeq (assocGenU32 c fuel) n rng' with
        | none => rfl
        | some q => rfl

/-- Witness for C8's `next` clause on the `Full` constraint. -/
theorem C8_iterator_witness :
    (some (0 : Nat), (⟨.Full, ⟨fun _ => 0, 1⟩⟩ : GenIterU32)).1.isSome = true :=
  C8_iterator_total_and_take_eq_scalar.1 ⟨.Full, ⟨fun _ => 0, 0⟩⟩ 1
    (some 0, ⟨.Full, ⟨fun _ => 0, 1⟩⟩) rfl

/-- C9. Whenever the entropy stream eventually produces a word below
the accept zone, the bounded rejection loops (assoc `u32`/`i64`, stream
`u32`, typeparam `u32`) return, with exactly the value mapped from the
first accepted word, leaving the cursor just past it; the unbounded and
float draws return unconditionally with no loop. -/
theorem C9_draw_termination_first_accept :
    (∀ low range zone : Nat, ∀ w : Nat → Nat, ∀ p i : Nat,
        p ≤ i → w i % U32MOD < zone → (∀ j, p ≤ j → j < i → ¬ w j % U32MOD < zone) →
        ∀ fuel : Nat, i < p + fuel →
          assocLoopU32 low range zone fuel ⟨w, p⟩ =
              some ((low + w i % U32MOD % range) % U32MOD, ⟨w, i + 1⟩) ∧
            streamNextBoundedU32 ⟨low, range, zone⟩ fuel ⟨w, p⟩ =
              some ((low + w i % U32MOD % range) % U32MOD, ⟨w, i + 1⟩) ∧
            typeparamLoopRangeU32 low range zone fuel ⟨w, p⟩ =
              some ((low + w i % U32MOD % range) % U32MOD, ⟨w, i + 1⟩)) ∧
    (∀ low range zone : Nat, ∀ w : Nat → Nat, ∀ p i : Nat,
        p ≤ i → w i % U64MOD < zone → (∀ j, p ≤ j → j < i → ¬ w j % U64MOD < zone) →
        ∀ fuel : Nat, i < p + fuel →
          assocLoopI64 low range zone fuel ⟨w, p⟩ =
            some (toI64 ((low + w i % U64MOD % range) % U64MOD), ⟨w, i + 1⟩)) ∧
    (∀ fuel : Nat, ∀ rng : Rng, assocGenU32 .Full fuel rng = some (next32 rng)) ∧
    (∀ rng : Rng, streamNextFullU32 rng = next32 rng) ∧
    (∀ s e : ℚ, ∀ rng : Rng,
        assocGenF64 (assocIntoRangeF64 s e) rng =
          (s + (nextF64 rng).1 * (e - s), (nextF64 rng).2)) := by
  refine ⟨?_, assocLoopI64_first_accept, fun fuel rng => rfl, fun rng => rfl,
    fun s e rng => rfl⟩
  intro low range zone w p i h1 h2 h3 fuel h4
  have hcore := assocLoopU32_first_accept low range zone w p i h1 h2 h3 fuel h4
  refine ⟨hcore, ?_, ?_⟩
  · rw [streamLoop_eq_assocLoop]
    exact hcore
  · rw [typeparamLoopRange_eq_assocLoop]
    exact hcore

/-- Witness for C9 at the `HalfOpen(4, 321)` constraint: the stream
`[4294967259, 100, ...]` first accepts at index `1`. -/
theorem C9_draw_termination_witness :
    assocLoopU32 4 317 4294967064 2 ⟨fun n => if n = 0 then (4294967259 : Nat) else 100, 0⟩ =
      some ((4 + (fun n => if n = 0 then (4294967259 : Nat) else 100) 1 % U32MOD % 317) % U32MOD,
        ⟨fun n => if n = 0 then (4294967259 : Nat) else 100, 1 + 1⟩) :=
  (C9_draw_termination_first_accept.1 4 317 4294967064
    (fun n => if n = 0 then (4294967259 : Nat) else 100) 0 1 (by omega) (by decide)
    (fun j hj1 hj2 => by
      have hj : j = 0 := by omega
      subst hj
      decide) 2 (by omega)).1

/-- C10. Every draw is a deterministic function of the constraint (or
stream / range) and the entropy-source state: equal starting states give
equal results, values and final states alike; the shallow embedding of
each draw is a pure function, reflecting that the Rust draws touch no
state beyond the uniquely borrowed `Rng`. -/
theorem C10_draws_deterministic :
    (∀ c : IntegerConstraint, ∀ fuel : Nat, ∀ r1 r2 : Rng, r1 = r2 →
        assocGenU32 c fuel r1 = assocGenU32 c fuel r2) ∧
    (∀ s : IntegerStreamBounded, ∀ fuel : Nat, ∀ r1 r2 : Rng, r1 = r2 →
        streamNextBoundedU32 s fuel r1 = streamNextBoundedU32 s fuel r2) ∧
    (∀ st e fuel : Nat, ∀ r1 r2 : Rng, r1 = r2 →
        typeparamGenRangeU32 st e fuel r1 = typeparamGenRangeU32 st e fuel r2) ∧
    (∀ c : IntegerConstraint, ∀ fuel : Nat, ∀ r1 r2 : Rng, r1 = r2 →
        assocGenI64 c fuel r1 = assocGenI64 c fuel r2) ∧
    (∀ s : IntegerStreamBoundedI64, ∀ fuel : Nat, ∀ r1 r2 : Rng, r1 = r2 →
        streamNextBoundedI64 s fuel r1 = streamNextBoundedI64 s fuel r2) ∧
    (∀ s e : Int, ∀ fuel : Nat, ∀ r1 r2 : Rng, r1 = r2 →
        typeparamGenRangeI64 s e fuel r1 = typeparamGenRangeI64 s e fuel r2) ∧
    (∀ c : FloatConstraint, ∀ r1 r2 : Rng, r1 = r2 → assocGenF64 c r1 = assocGenF64 c r2) ∧
    (∀ s e : ℚ, ∀ r1 r2 : Rng, r1 = r2 →
        typeparamGenRangeF64 s e r1 = typeparamGenRangeF64 s e r2) :=
  ⟨fun _ _ _ _ h => by rw [h], fun _ _ _ _ h => by rw [h], fun _ _ _ _ _ h => by rw [h],
    fun _ _ _ _ h => by rw [h], fun _ _ _ _ h => by rw [h], fun _ _ _ _ _ h => by rw [h],
    fun _ _ _ h => by rw [h], fun _ _ _ _ h => by rw [h]⟩

/-- Witness for C10 on the `Full` constraint with equal sources. -/
theorem C10_draws_deterministic_witness :
    assocGenU32 .Full 1 ⟨fun _ => 0, 0⟩ = assocGenU32 .Full 1 ⟨fun _ => 0, 0⟩ :=
  C10_draws_deterministic.1 .Full 1 ⟨fun _ => 0, 0⟩ ⟨fun _ => 0, 0⟩ rfl

end RandSketch
